import Mathlib

/-!
# esp8266tool: a verification development of `main.go`

Shallow embedding of the session type `ESP8266` of `main.go` and of its methods
`Exec`, `Sync`, `SetDTR`, `SetRTS` and `ComputeMacAddr`.

* Bytes are `Fin 256`; a Go `[4]byte` is a function `Fin 4 → Byte`; a `[]byte` is a `List Byte`.
* The session's effects on the outside world (options handed to `serialPort.Apply`, calls of
  `time.Sleep`, the start of an exchange) are recorded, in program order, in a ghost field
  `trace` of the session state.
* The receiver loop of `Exec` consumes the results of the successive `e.slipRW.Read` calls, which
  are given as a list. A Go runtime panic (index out of range) is an explicit outcome.
* The package `fluepke-common` (`Command`, `Response`, `NewResponse`, `NewSyncCommand`,
  `SlipReadWriter`) is a separate package of the repository: `Exec` and `Sync` take
  `NewResponse` and `NewSyncCommand` as parameters.
* The flag `done` is written by the receiver loop only; the transmitter goroutine reads it.
  `exchange` runs both loops of `Exec` on a sequence of completed transport calls, writes of
  the goroutine and reads of the receiver loop, in the order in which they complete.
-/

namespace Esp8266tool

/-! ## Bytes and `encoding/hex` -/

/-- A Go `byte`. -/
abbrev Byte := Fin 256

/-- The constant `hextable = "0123456789abcdef"` of Go's `encoding/hex`. -/
def hextable : List Char :=
  ['0', '1', '2', '3', '4', '5', '6', '7', '8', '9', 'a', 'b', 'c', 'd', 'e', 'f']

/-- The character `hextable[v>>4]` that `hex.Encode` writes first for the byte `v`. -/
def hexHigh (v : Byte) : Char := hextable.get ⟨v.val >>> 4, by
  have h := v.isLt
  simp only [Nat.shiftRight_eq_div_pow, hextable, List.length]
  omega⟩

/-- The character `hextable[v&0x0f]` that `hex.Encode` writes second for the byte `v`. -/
def hexLow (v : Byte) : Char := hextable.get ⟨v.val &&& 0x0f, by
  have h : v.val &&& 0x0f < 2 ^ 4 := Nat.and_lt_two_pow _ (by decide)
  simpa [hextable] using h⟩

/-- Go's `hex.EncodeToString`: two characters of `hextable` per source byte. -/
def EncodeToString (src : List Byte) : String :=
  String.mk (src.flatMap fun v => [hexHigh v, hexLow v])

/-! ## `ComputeMacAddr` (main.go, lines 119-136) -/

/-- The method `ESP8266.ComputeMacAddr`: the six bytes picked from the three register values are appended
to the result in order, each hex-encoded, with a `":"` before every byte but the first
(`if i >= 1`). The receiver `e` is not used by the method. -/
def ComputeMacAddr (mac0 mac1 mac3 : Fin 4 → Byte) : String :=
  let macAddr : List Byte := [mac3 2, mac3 1, mac3 0, mac1 1, mac1 0, mac0 3]
  macAddr.enum.foldl
    (fun s ib =>
      let s := if ib.1 ≥ 1 then s ++ ":" else s
      s ++ EncodeToString [ib.2])
    ""

/-- The two-digit hex rendering of a byte, stated independently of `encoding/hex`: the base-16
digits of the value, most significant first, padded with `'0'` on the left to two characters. -/
def twoDigitHex (b : Byte) : String :=
  let ds := Nat.toDigits 16 b.val
  String.mk (List.replicate (2 - ds.length) '0' ++ ds)

/-- A character drawn from `0-9` or lowercase `a-f`. -/
def isLowerHex (c : Char) : Bool :=
  ('0' ≤ c && c ≤ '9') || ('a' ≤ c && c ≤ 'f')

/-! ## Serial options and the session state -/

namespace serial

/-- The setting of a control line in `serial.Options` (package `go-serial`): the source names
`serial.DTR_ON`, `serial.DTR_OFF`, `serial.RTS_ON` and `serial.RTS_OFF`; the library has two more
settings per line. -/
inductive Pin
  | INVALID
  | OFF
  | ON
  | FLOW_CONTROL
  deriving DecidableEq

/-- The constant `serial.DTR_ON`. -/
abbrev DTR_ON : Pin := Pin.ON

/-- The constant `serial.DTR_OFF`. -/
abbrev DTR_OFF : Pin := Pin.OFF

/-- The constant `serial.RTS_ON`. -/
abbrev RTS_ON : Pin := Pin.ON

/-- The constant `serial.RTS_OFF`. -/
abbrev RTS_OFF : Pin := Pin.OFF

/-- The fields of `serial.Options` that `main.go` reads or writes. -/
structure Options where
  BitRate : Int
  Mode : Int
  DTR : Pin
  RTS : Pin
  deriving DecidableEq

end serial

/-- Modelled from the spec: the type `common.Command` of the package `fluepke-common`, which is
not among the sources; section 3 gives it an opcode and a payload. `main.go` reads `cmd.Opcode`
and converts it with `byte(cmd.Opcode)`. -/
structure Command where
  Opcode : Nat
  Data : List Byte
  deriving DecidableEq

/-- An externally visible action of the session, recorded in program order. -/
inductive Action
  | apply (opts : serial.Options)
  | sleep (d : Nat)
  | exec (cmd : Command)
  deriving DecidableEq

/-- The struct `ESP8266`, with the fields the modelled methods use, and the ghost field `trace`
of the actions performed so far: `apply opts` for a call `e.serialPort.Apply(&e.serialOpts)` that
found `opts` behind the pointer, `sleep d` for `time.Sleep(d)`, `exec cmd` for the start of
`Exec(cmd)`. -/
structure ESP8266 where
  portDevice : String
  baudRate : Int
  serialOpts : serial.Options
  trace : List Action
  deriving DecidableEq

/-- Go's `time.Millisecond`, in nanoseconds. -/
def Millisecond : Nat := 1000000

/-- The call `e.serialPort.Apply(&e.serialOpts)`: the port receives a pointer and reads the
options stored in the session at the moment the call runs. Its result is dropped by both
callers (a deferred call's results are discarded). -/
def Apply (e : ESP8266) : ESP8266 :=
  { e with trace := e.trace ++ [Action.apply e.serialOpts] }

/-- The call `time.Sleep(d)`. -/
def Sleep (e : ESP8266) (d : Nat) : ESP8266 :=
  { e with trace := e.trace ++ [Action.sleep d] }

/-- The method `ESP8266.SetDTR` (lines 99-107): the body assigns `e.serialOpts.DTR`; the deferred `Apply`
runs when the function returns, after the assignment on either branch. -/
def SetDTR (e : ESP8266) (v : Bool) : ESP8266 :=
  let e1 : ESP8266 :=
    if v then { e with serialOpts := { e.serialOpts with DTR := serial.DTR_ON } }
    else { e with serialOpts := { e.serialOpts with DTR := serial.DTR_OFF } }
  Apply e1

/-- The method `ESP8266.SetRTS` (lines 109-117): as `SetDTR`, for the field `RTS`. -/
def SetRTS (e : ESP8266) (v : Bool) : ESP8266 :=
  let e1 : ESP8266 :=
    if v then { e with serialOpts := { e.serialOpts with RTS := serial.RTS_ON } }
    else { e with serialOpts := { e.serialOpts with RTS := serial.RTS_OFF } }
  Apply e1

/-! ## `Exec` (main.go, lines 53-79) -/

/-- Modelled from the spec: the kinds of error a read of the missing `common.SlipReadWriter`
can report (section 7: `TimeoutError`, `FramingError`, `TransportError`). `Exec` only tests
`err != nil`. -/
inductive ReadError
  | timeout
  | framing
  | transport
  deriving DecidableEq

/-- The pair `(rawData, err)` returned by one call `e.slipRW.Read(3 * time.Second)`;
`err = none` is Go's `nil`. -/
structure ReadResult where
  rawData : List Byte
  err : Option ReadError
  deriving DecidableEq

/-- The local variables `done`, `rawData` and `err` of `Exec`. -/
structure LoopState where
  done : Bool
  rawData : List Byte
  err : Option ReadError
  deriving DecidableEq

/-- The state of the local variables when the loop starts. -/
def LoopState.init : LoopState := { done := false, rawData := [], err := none }

/-- How the receiver loop stands once the delivered read results are used up. -/
inductive LoopExit
  | exited (s : LoopState)
  | panicked
  | reading (s : LoopState)
  deriving DecidableEq

/-- The loop `for !done { ... }` of `Exec` (lines 64-76), run on the results of the successive
reads. `exited s`: the test `!done` failed in state `s`. `panicked`: `rawData[1]` was evaluated
on a slice of length 1 (Go panics with index out of range). `reading s`: the test `!done`
passed in state `s` and the loop is in its next `Read`, whose result is not among those given. -/
def receiverLoop (cmd : Command) : LoopState → List ReadResult → LoopExit
  | s, [] => if s.done then LoopExit.exited s else LoopExit.reading s
  | s, r :: rest =>
    if s.done then LoopExit.exited s
    else
      let s1 : LoopState := { s with rawData := r.rawData, err := r.err }
      if s1.err ≠ none then receiverLoop cmd s1 rest
      else if s1.rawData.length = 0 then receiverLoop cmd s1 rest
      else
        match s1.rawData[1]? with
        | none => LoopExit.panicked
        | some b =>
          if b.val ≠ cmd.Opcode % 256 then receiverLoop cmd s1 rest
          else receiverLoop cmd { s1 with done := true } rest

/-- What a call of `Exec` has come to once the delivered read results are used up: it returned
the value `r`, it panicked, or it is still in its receiver loop, in state `s`. -/
inductive Outcome (ρ : Type)
  | returned (r : ρ)
  | panicked
  | reading (s : LoopState)
  deriving DecidableEq

/-- The method `ESP8266.Exec`: `done`, `rawData` and `err` start at their zero values; after the loop the
frame left in `rawData` is given to `NewResponse` and the pair it yields is returned as it is
(lines 77-78). `ρ` is the type of that pair. The goroutine of lines 56-61 only reads `done` and
writes `cmd.ToBytes()` to the transport, dropping the result of `Write`; the value returned by
`Exec` does not depend on it. -/
def Exec {ρ : Type} (NewResponse : List Byte → ρ) (e : ESP8266) (cmd : Command)
    (reads : List ReadResult) : ESP8266 × Outcome ρ :=
  let e1 : ESP8266 := { e with trace := e.trace ++ [Action.exec cmd] }
  match receiverLoop cmd LoopState.init reads with
  | LoopExit.exited s => (e1, Outcome.returned (NewResponse s.rawData))
  | LoopExit.panicked => (e1, Outcome.panicked)
  | LoopExit.reading s => (e1, Outcome.reading s)

/-- The method `ESP8266.Sync` (lines 88-97). The results of the four setter calls are not used (they have
none). `NewSyncCommand` is the value of `common.NewSyncCommand()`. -/
def Sync {ρ : Type} (NewResponse : List Byte → ρ) (NewSyncCommand : Command) (e : ESP8266)
    (reads : List ReadResult) : ESP8266 × Outcome ρ :=
  let e := SetDTR e false
  let e := SetRTS e true
  let e := Sleep e (100 * Millisecond)
  let e := SetDTR e true
  let e := SetRTS e false
  let cmd := NewSyncCommand
  let e := Sleep e (100 * Millisecond)
  Exec NewResponse e cmd reads

/-- The line configurations `(DTR, RTS)` handed to the device, in order, in a trace. -/
def appliedLines : List Action → List (serial.Pin × serial.Pin)
  | [] => []
  | Action.apply o :: t => (o.DTR, o.RTS) :: appliedLines t
  | Action.sleep _ :: t => appliedLines t
  | Action.exec _ :: t => appliedLines t

/-! ## `Exec` with its transmitter goroutine (main.go, lines 55-79) -/

/-- Modelled from the spec: the kind of error a write of the missing `common.SlipReadWriter`
can report (section 7: `TransportError`, a write failure on the device). -/
inductive WriteError
  | transport
  deriving DecidableEq

/-- The result of one call `e.slipRW.Write(cmd.ToBytes())`; `err = none` is Go's `nil`. The
call of line 58 is an expression statement: its result is not stored or tested. -/
structure WriteResult where
  err : Option WriteError
  deriving DecidableEq

/-- One completed transport call of a running `Exec`, in the order in which the calls of its
two loops complete: `write w` is the call of `Write` of one iteration of the goroutine
(lines 57-60), with result `w`; `read r` is the call of `Read` of one iteration of the receiver
loop (lines 64-76), with result `r`. -/
inductive Event
  | write (w : WriteResult)
  | read (r : ReadResult)
  deriving DecidableEq

/-- The variables of a running `Exec`, with the ghost field `written` of the frames handed to
`e.slipRW.Write` so far. -/
structure ExchangeState where
  loop : LoopState
  written : List (List Byte)
  deriving DecidableEq

/-- The state in which `Exec` starts its two loops. -/
def ExchangeState.init : ExchangeState := { loop := LoopState.init, written := [] }

/-- How the exchange stands once the given events are used up. -/
inductive ExchangeExit
  | exited (x : ExchangeState)
  | panicked
  | running (x : ExchangeState)
  deriving DecidableEq

/-- The two loops of `Exec` run on a sequence of events. A `write` event is one iteration of
the goroutine: `cmd.ToBytes()` is handed to `Write` and the result is dropped (line 58). A
`read` event is one iteration of the receiver loop, as in `receiverLoop`. `exited x`: the
receiver loop found `done` set, in state `x`. `running x`: `done` is false and both loops go
on. `ToBytes` is the method `cmd.ToBytes()`. -/
def exchange (ToBytes : Command → List Byte) (cmd : Command) :
    ExchangeState → List Event → ExchangeExit
  | x, [] => if x.loop.done then ExchangeExit.exited x else ExchangeExit.running x
  | x, Event.write _ :: rest =>
    if x.loop.done then ExchangeExit.exited x
    else exchange ToBytes cmd { x with written := x.written ++ [ToBytes cmd] } rest
  | x, Event.read r :: rest =>
    if x.loop.done then ExchangeExit.exited x
    else
      let s1 : LoopState := { x.loop with rawData := r.rawData, err := r.err }
      if s1.err ≠ none then exchange ToBytes cmd { x with loop := s1 } rest
      else if s1.rawData.length = 0 then exchange ToBytes cmd { x with loop := s1 } rest
      else
        match s1.rawData[1]? with
        | none => ExchangeExit.panicked
        | some b =>
          if b.val ≠ cmd.Opcode % 256 then exchange ToBytes cmd { x with loop := s1 } rest
          else exchange ToBytes cmd { x with loop := { s1 with done := true } } rest

/-- The method `ESP8266.Exec` with its goroutine: what the call has come to once the given
events are used up. After the loop the frame left in `rawData` is given to `NewResponse` and the
pair it yields is returned as it is (lines 77-78). -/
def ExecWithTransmitter {ρ : Type} (NewResponse : List Byte → ρ)
    (ToBytes : Command → List Byte) (cmd : Command) (events : List Event) : Outcome ρ :=
  match exchange ToBytes cmd ExchangeState.init events with
  | ExchangeExit.exited x => Outcome.returned (NewResponse x.loop.rawData)
  | ExchangeExit.panicked => Outcome.panicked
  | ExchangeExit.running x => Outcome.reading x.loop

/-- The results of the reads among the events, in order. -/
def readsOf : List Event → List ReadResult
  | [] => []
  | Event.write _ :: rest => readsOf rest
  | Event.read r :: rest => r :: readsOf rest

/-- Modelled from the spec: the method `Command.ToBytes` of the missing package
`fluepke-common`, after section 4.2 and the request layout of section 6
(`[direction=0x00][opcode:1][len_lo:1][len_hi:1][checksum:4][payload: len bytes]`), with the
checksum field of a non-data command, which is zero. -/
def Command.ToBytes (cmd : Command) : List Byte :=
  [0x00, ⟨cmd.Opcode % 256, Nat.mod_lt _ (by decide)⟩,
   ⟨cmd.Data.length % 256, Nat.mod_lt _ (by decide)⟩,
   ⟨cmd.Data.length / 256 % 256, Nat.mod_lt _ (by decide)⟩,
   0x00, 0x00, 0x00, 0x00] ++ cmd.Data

/-! ## Predicates on read results -/

/-- The read ended in an error (`err != nil`). -/
def ReadResult.failed (r : ReadResult) : Prop := r.err ≠ none

/-- The read yielded an empty frame without error. -/
def ReadResult.emptyFrame (r : ReadResult) : Prop := r.err = none ∧ r.rawData = []

/-- The read yielded, without error, a frame whose byte at index 1 is `b`. -/
def ReadResult.hasOpcode (r : ReadResult) (b : Byte) : Prop :=
  r.err = none ∧ r.rawData[1]? = some b

/-- The read yielded a frame whose opcode byte equals the command's opcode. -/
def ReadResult.matchesCmd (cmd : Command) (r : ReadResult) : Prop :=
  ∃ b : Byte, r.hasOpcode b ∧ b.val = cmd.Opcode

/-- The read is a read error, an empty frame, or a frame with a different opcode byte. -/
def ReadResult.skippable (cmd : Command) (r : ReadResult) : Prop :=
  r.failed ∨ r.emptyFrame ∨ ∃ b : Byte, r.hasOpcode b ∧ b.val ≠ cmd.Opcode

/-- The read is one the loop body leaves through a `continue`: the tests of lines 66, 69
and 72, with the conversion `byte(cmd.Opcode)`. -/
def ReadResult.continues (cmd : Command) (r : ReadResult) : Prop :=
  r.failed ∨ r.emptyFrame ∨ ∃ b : Byte, r.hasOpcode b ∧ b.val ≠ cmd.Opcode % 256

/-- The read is one on which the loop body reaches `done = true` (line 75). -/
def ReadResult.completes (cmd : Command) (r : ReadResult) : Prop :=
  ∃ b : Byte, r.hasOpcode b ∧ b.val = cmd.Opcode % 256

/-! ## A response parser after the spec -/

/-- Modelled from the spec: `common.Response` of the missing package `fluepke-common`
(section 3): opcode, 4-byte value, status bytes, raw frame. -/
structure Response where
  opcode : Byte
  value : List Byte
  status : List Byte
  raw : List Byte
  deriving DecidableEq

/-- Modelled from the spec: the error `ParseError` of section 7, for a frame that
`parseResponse` rejects. -/
inductive ParseError
  | tooShort
  | badDirection
  deriving DecidableEq

/-- Modelled from the spec: `common.NewResponse` of the missing package `fluepke-common`, after
section 4.2 and the response layout of section 6
(`[direction=0x01][opcode:1][len_lo:1][len_hi:1][value:4][payload remainder...][status bytes]`):
it validates a minimum length and the direction marker, then extracts the opcode, the 4-byte
value at offset 4 and the trailing bytes. The spec gives no number for the minimum; 8 is the
least length that holds the value field. -/
def NewResponse (data : List Byte) : Except ParseError Response :=
  if data.length < 8 then Except.error ParseError.tooShort
  else if data[0]? ≠ some 1 then Except.error ParseError.badDirection
  else
    Except.ok
      { opcode := data.getD 1 0
        value := (data.drop 4).take 4
        status := data.drop 8
        raw := data }

/-! ## Sample values -/

/-- A session over `/dev/ttyUSB0` at 115200 baud whose recorded lines are DTR on, RTS off, and
which has performed no action yet. -/
def sampleSession : ESP8266 :=
  { portDevice := "/dev/ttyUSB0"
    baudRate := 115200
    serialOpts := { BitRate := 115200, Mode := 3, DTR := serial.Pin.ON, RTS := serial.Pin.OFF }
    trace := [] }

/-- A command with opcode `0x0a` whose payload is the address `0x3ff00050`, little-endian. -/
def sampleCommand : Command := { Opcode := 0x0a, Data := [0x50, 0x00, 0xf0, 0x3f] }

/-- A command with opcode `0x08` and a four-byte payload. -/
def sampleSyncCommand : Command := { Opcode := 0x08, Data := [0x07, 0x07, 0x12, 0x20] }

/-- A ten-byte response frame with opcode byte `op` and value field `[1, 2, 3, 4]`. -/
def sampleFrame (op : Byte) : List Byte := [0x01, op, 0x02, 0x00, 0x01, 0x02, 0x03, 0x04, 0x00, 0x00]

/-- A read that delivers `sampleFrame op` without error. -/
def sampleRead (op : Byte) : ReadResult := { rawData := sampleFrame op, err := none }

/-- A read that ends in a timeout. -/
def timeoutRead : ReadResult := { rawData := [], err := some ReadError.timeout }

/-- A read that ends in a transport failure. -/
def transportFailure : ReadResult := { rawData := [], err := some ReadError.transport }

/-- A read that delivers an empty frame without error. -/
def emptyRead : ReadResult := { rawData := [], err := none }

/-- A write that succeeded. -/
def writeOk : WriteResult := { err := none }

/-- A write that ended in a transport failure. -/
def writeFailure : WriteResult := { err := some WriteError.transport }

/-! ## Theorems: `ComputeMacAddr` -/

set_option maxRecDepth 100000 in
/-- On a single byte, `hex.EncodeToString` yields the two-digit hex rendering. -/
theorem EncodeToString_single (b : Byte) : EncodeToString [b] = twoDigitHex b := by
  revert b
  decide

set_option maxRecDepth 100000 in
/-- Both characters written for a byte are lowercase hex digits. -/
theorem hex_isLowerHex (b : Byte) :
    isLowerHex (hexHigh b) = true ∧ isLowerHex (hexLow b) = true := by
  revert b
  decide

set_option maxRecDepth 100000 in
/-- Neither character written for a byte is the separator. -/
theorem hex_ne_colon (b : Byte) : hexHigh b ≠ ':' ∧ hexLow b ≠ ':' := by
  revert b
  decide

/-- The loop of `ComputeMacAddr`, unrolled over its six bytes. -/
theorem ComputeMacAddr_unfold (mac0 mac1 mac3 : Fin 4 → Byte) :
    ComputeMacAddr mac0 mac1 mac3 =
      EncodeToString [mac3 2] ++ ":" ++ EncodeToString [mac3 1] ++ ":" ++
      EncodeToString [mac3 0] ++ ":" ++ EncodeToString [mac1 1] ++ ":" ++
      EncodeToString [mac1 0] ++ ":" ++ EncodeToString [mac0 3] := by
  simp [ComputeMacAddr, List.enum, List.enumFrom]

/-- The characters of the string returned by `ComputeMacAddr`. -/
theorem ComputeMacAddr_data (mac0 mac1 mac3 : Fin 4 → Byte) :
    (ComputeMacAddr mac0 mac1 mac3).data =
      [hexHigh (mac3 2), hexLow (mac3 2), ':', hexHigh (mac3 1), hexLow (mac3 1), ':',
       hexHigh (mac3 0), hexLow (mac3 0), ':', hexHigh (mac1 1), hexLow (mac1 1), ':',
       hexHigh (mac1 0), hexLow (mac1 0), ':', hexHigh (mac0 3), hexLow (mac0 3)] := by
  rw [ComputeMacAddr_unfold]
  simp [EncodeToString, String.data_append]

/-- C1: for all register values, `ComputeMacAddr` returns the two-digit hex renderings of
`mac3[2], mac3[1], mac3[0], mac1[1], mac1[0], mac0[3]`, in that order, joined by `":"`; and for
`mac0=[_,_,_,0xAA]`, `mac1=[0xBB,0xCC,_,_]`, `mac3=[0xDD,0xEE,0xFF,_]`, whatever stands in the
other positions, the result is `"ff:ee:dd:cc:bb:aa"`. -/
theorem ComputeMacAddr_joins_hex_pairs :
    (∀ mac0 mac1 mac3 : Fin 4 → Byte,
      ComputeMacAddr mac0 mac1 mac3 =
        ":".intercalate [twoDigitHex (mac3 2), twoDigitHex (mac3 1), twoDigitHex (mac3 0),
          twoDigitHex (mac1 1), twoDigitHex (mac1 0), twoDigitHex (mac0 3)]) ∧
    (∀ x0 x1 x2 y2 y3 z3 : Byte,
      ComputeMacAddr ![x0, x1, x2, 0xAA] ![0xBB, 0xCC, y2, y3] ![0xDD, 0xEE, 0xFF, z3] =
        "ff:ee:dd:cc:bb:aa") := by
  constructor
  · intro mac0 mac1 mac3
    rw [ComputeMacAddr_unfold]
    simp only [EncodeToString_single]
    simp [String.intercalate, String.intercalate.go, String.append_assoc]
  · intro x0 x1 x2 y2 y3 z3
    rw [ComputeMacAddr_unfold]
    simp only [EncodeToString_single]
    simp
    decide

/-- C2: for all register values, the string returned by `ComputeMacAddr` has exactly 17
characters; the characters at positions 2, 5, 8, 11 and 14 are `':'` and every other position
(the first and the last included) holds a character from `0-9`, `a-f`; the string holds exactly
five `':'`. -/
theorem ComputeMacAddr_shape (mac0 mac1 mac3 : Fin 4 → Byte) :
    (ComputeMacAddr mac0 mac1 mac3).length = 17 ∧
    (∀ i : Fin 17, ∃ c : Char, (ComputeMacAddr mac0 mac1 mac3).data[i.val]? = some c ∧
      if i.val ∈ [2, 5, 8, 11, 14] then c = ':' else isLowerHex c = true) ∧
    (ComputeMacAddr mac0 mac1 mac3).data.count ':' = 5 := by
  have hd := ComputeMacAddr_data mac0 mac1 mac3
  refine ⟨?_, ?_, ?_⟩
  · rw [String.length, hd]
    rfl
  · intro i
    rw [hd]
    fin_cases i <;> simp [hex_isLowerHex]
  · rw [hd]
    simp [List.count_cons, hex_ne_colon]

/-! ## Lemmas on the receiver loop -/

/-- Once `done` is set the loop exits without another read. -/
theorem receiverLoop_done (cmd : Command) (s : LoopState) (reads : List ReadResult)
    (h : s.done = true) : receiverLoop cmd s reads = LoopExit.exited s := by
  cases reads <;> simp [receiverLoop, h]

/-- A read that ends in a `continue` leaves `done` false and stores the read's pair. -/
theorem receiverLoop_continue (cmd : Command) (s : LoopState) (r : ReadResult)
    (rest : List ReadResult) (hs : s.done = false) (hr : r.continues cmd) :
    receiverLoop cmd s (r :: rest) =
      receiverLoop cmd { done := false, rawData := r.rawData, err := r.err } rest := by
  rcases hr with h | h | ⟨b, ⟨h1, h2⟩, h3⟩
  · have h0 : r.err ≠ none := h
    simp [receiverLoop, hs, h0]
  · obtain ⟨h1, h2⟩ := h
    simp [receiverLoop, hs, h1, h2]
  · have hne : r.rawData ≠ [] := by
      intro h0
      simp [h0] at h2
    simp [receiverLoop, hs, h1, h2, hne, h3]

/-- A read whose frame carries the opcode of the command ends the loop with that frame in
`rawData`. -/
theorem receiverLoop_complete (cmd : Command) (s : LoopState) (r : ReadResult)
    (rest : List ReadResult) (hs : s.done = false) (hr : r.completes cmd) :
    receiverLoop cmd s (r :: rest) =
      LoopExit.exited { done := true, rawData := r.rawData, err := none } := by
  obtain ⟨b, ⟨h1, h2⟩, h3⟩ := hr
  have hne : r.rawData ≠ [] := by
    intro h0
    simp [h0] at h2
  simp [receiverLoop, hs, h1, h2, hne, h3, receiverLoop_done]

/-- A frame of length 1 read without error makes the loop panic at `rawData[1]`. -/
theorem receiverLoop_short (cmd : Command) (s : LoopState) (b : Byte)
    (rest : List ReadResult) (hs : s.done = false) :
    receiverLoop cmd s ({ rawData := [b], err := none } :: rest) = LoopExit.panicked := by
  simp [receiverLoop, hs]

/-- Every read is a `continue`, completes the exchange, or is a frame of length 1. -/
theorem ReadResult.cases (cmd : Command) (r : ReadResult) :
    r.continues cmd ∨ r.completes cmd ∨ ∃ b : Byte, r = { rawData := [b], err := none } := by
  obtain ⟨data, err⟩ := r
  cases err with
  | some x => exact Or.inl (Or.inl (by simp [ReadResult.failed]))
  | none =>
    match data with
    | [] => exact Or.inl (Or.inr (Or.inl ⟨rfl, rfl⟩))
    | [b] => exact Or.inr (Or.inr ⟨b, rfl⟩)
    | a :: b :: t =>
      by_cases hb : b.val = cmd.Opcode % 256
      · exact Or.inr (Or.inl ⟨b, ⟨rfl, by simp⟩, hb⟩)
      · exact Or.inl (Or.inr (Or.inr ⟨b, ⟨rfl, by simp⟩, hb⟩))

/-- The loop on `pre ++ rest` is the loop on `pre`, resumed on `rest` when it is still
reading. -/
theorem receiverLoop_append (cmd : Command) (pre rest : List ReadResult) (s : LoopState) :
    receiverLoop cmd s (pre ++ rest) =
      match receiverLoop cmd s pre with
      | LoopExit.reading s1 => receiverLoop cmd s1 rest
      | other => other := by
  induction pre generalizing s with
  | nil =>
    cases hd : s.done
    · simp [receiverLoop, hd]
    · simp [receiverLoop, hd, receiverLoop_done]
  | cons r pre ih =>
    cases hd : s.done
    · rcases ReadResult.cases cmd r with h | h | ⟨b, rfl⟩
      · rw [List.cons_append, receiverLoop_continue cmd s r _ hd h,
          receiverLoop_continue cmd s r _ hd h]
        exact ih _
      · rw [List.cons_append, receiverLoop_complete cmd s r _ hd h,
          receiverLoop_complete cmd s r _ hd h]
      · rw [List.cons_append, receiverLoop_short cmd s b _ hd, receiverLoop_short cmd s b _ hd]
    · rw [receiverLoop_done cmd s _ hd, receiverLoop_done cmd s _ hd]

/-- A state in which the loop is reading has `done` false. -/
theorem receiverLoop_reading_done (cmd : Command) (reads : List ReadResult) (s s1 : LoopState)
    (h : receiverLoop cmd s reads = LoopExit.reading s1) : s1.done = false := by
  induction reads generalizing s with
  | nil =>
    cases hd : s.done
    · simp [receiverLoop, hd] at h
      rw [← h]
      exact hd
    · simp [receiverLoop, hd] at h
  | cons r reads ih =>
    cases hd : s.done
    · rcases ReadResult.cases cmd r with hr | hr | ⟨b, rfl⟩
      · rw [receiverLoop_continue cmd s r _ hd hr] at h
        exact ih _ h
      · rw [receiverLoop_complete cmd s r _ hd hr] at h
        cases h
      · rw [receiverLoop_short cmd s b _ hd] at h
        cases h
    · rw [receiverLoop_done cmd s _ hd] at h
      cases h

/-- With `done` false, what the loop does on a non-empty list of reads does not depend on the
values left in `rawData` and `err`: the next read overwrites both. -/
theorem receiverLoop_overwrites (cmd : Command) (s : LoopState) (r : ReadResult)
    (rest : List ReadResult) (hs : s.done = false) :
    receiverLoop cmd s (r :: rest) = receiverLoop cmd LoopState.init (r :: rest) := by
  rcases ReadResult.cases cmd r with hr | hr | ⟨b, rfl⟩
  · rw [receiverLoop_continue cmd s r _ hs hr, receiverLoop_continue cmd _ r _ rfl hr]
  · rw [receiverLoop_complete cmd s r _ hs hr, receiverLoop_complete cmd _ r _ rfl hr]
  · rw [receiverLoop_short cmd s b _ hs, receiverLoop_short cmd _ b _ rfl]

/-- Over reads that all end in a `continue` the loop keeps reading. -/
theorem receiverLoop_continues (cmd : Command) (pre : List ReadResult) (s : LoopState)
    (hs : s.done = false) (hpre : ∀ r ∈ pre, r.continues cmd) :
    ∃ s1 : LoopState, receiverLoop cmd s pre = LoopExit.reading s1 ∧ s1.done = false := by
  induction pre generalizing s with
  | nil => exact ⟨s, by simp [receiverLoop, hs], hs⟩
  | cons r pre ih =>
    rw [receiverLoop_continue cmd s r _ hs (hpre r (List.mem_cons_self _ _))]
    exact ih _ rfl (fun q hq => hpre q (List.mem_cons_of_mem _ hq))

/-- When the loop has exited, it did so on the first read that completes the exchange, and
every read before it ended in a `continue`. -/
theorem receiverLoop_exited (cmd : Command) (reads : List ReadResult) (s s1 : LoopState)
    (hs : s.done = false) (h : receiverLoop cmd s reads = LoopExit.exited s1) :
    ∃ (pre : List ReadResult) (f : ReadResult) (rest : List ReadResult),
      reads = pre ++ f :: rest ∧ (∀ r ∈ pre, r.continues cmd) ∧ f.completes cmd ∧
      s1 = { done := true, rawData := f.rawData, err := none } := by
  induction reads generalizing s with
  | nil => simp [receiverLoop, hs] at h
  | cons r reads ih =>
    rcases ReadResult.cases cmd r with hr | hr | ⟨b, rfl⟩
    · rw [receiverLoop_continue cmd s r _ hs hr] at h
      obtain ⟨pre, f, rest, h1, h2, h3, h4⟩ := ih _ rfl h
      refine ⟨r :: pre, f, rest, by simp [h1], ?_, h3, h4⟩
      intro q hq
      rcases List.mem_cons.mp hq with rfl | hq
      · exact hr
      · exact h2 q hq
    · rw [receiverLoop_complete cmd s r _ hs hr] at h
      refine ⟨[], r, reads, rfl, by simp, hr, ?_⟩
      cases h
      rfl
    · rw [receiverLoop_short cmd s b _ hs] at h
      cases h

/-- The outcome of `Exec` is read off the receiver loop. -/
theorem Exec_outcome {ρ : Type} (NewResponse : List Byte → ρ) (e : ESP8266) (cmd : Command)
    (reads : List ReadResult) :
    (Exec NewResponse e cmd reads).2 =
      match receiverLoop cmd LoopState.init reads with
      | LoopExit.exited s => Outcome.returned (NewResponse s.rawData)
      | LoopExit.panicked => Outcome.panicked
      | LoopExit.reading s => Outcome.reading s := by
  unfold Exec
  cases receiverLoop cmd LoopState.init reads <;> rfl

/-- The session after `Exec`: only the start of the exchange is added to the trace. -/
theorem Exec_session {ρ : Type} (NewResponse : List Byte → ρ) (e : ESP8266) (cmd : Command)
    (reads : List ReadResult) :
    (Exec NewResponse e cmd reads).1 = { e with trace := e.trace ++ [Action.exec cmd] } := by
  unfold Exec
  split <;> rfl

/-- The call of `Exec` is still reading exactly when its receiver loop is. -/
theorem Exec_reading {ρ : Type} (NewResponse : List Byte → ρ) (e : ESP8266) (cmd : Command)
    (reads : List ReadResult) (s : LoopState) :
    (Exec NewResponse e cmd reads).2 = Outcome.reading s ↔
      receiverLoop cmd LoopState.init reads = LoopExit.reading s := by
  rw [Exec_outcome]
  cases receiverLoop cmd LoopState.init reads <;> simp

/-- After a prefix over which `Exec` is still reading, the remaining reads are handled as by
a fresh loop. -/
theorem Exec_resume {ρ : Type} (NewResponse : List Byte → ρ) (e : ESP8266) (cmd : Command)
    (pre : List ReadResult) (s : LoopState) (r : ReadResult) (rest : List ReadResult)
    (h : receiverLoop cmd LoopState.init pre = LoopExit.reading s) :
    (Exec NewResponse e cmd (pre ++ r :: rest)).2 = (Exec NewResponse e cmd (r :: rest)).2 := by
  rw [Exec_outcome, Exec_outcome, receiverLoop_append, h]
  simp only
  rw [receiverLoop_overwrites cmd s r rest (receiverLoop_reading_done cmd pre _ s h)]

/-- A read that the claim calls skippable ends in a `continue` when the opcode of the command
fits a byte. -/
theorem ReadResult.skippable_continues (cmd : Command) (r : ReadResult)
    (hop : cmd.Opcode < 256) (h : r.skippable cmd) : r.continues cmd := by
  rcases h with h | h | ⟨b, hb, hne⟩
  · exact Or.inl h
  · exact Or.inr (Or.inl h)
  · exact Or.inr (Or.inr ⟨b, hb, by rwa [Nat.mod_eq_of_lt hop]⟩)

/-! ## Lemmas on the exchange with the transmitter -/

/-- Once `done` is set the exchange is over, whatever events follow. -/
theorem exchange_done (ToBytes : Command → List Byte) (cmd : Command) (x : ExchangeState)
    (events : List Event) (h : x.loop.done = true) :
    exchange ToBytes cmd x events = ExchangeExit.exited x := by
  cases events with
  | nil => simp [exchange, h]
  | cons ev rest => cases ev <;> simp [exchange, h]

/-- A write of the goroutine, whatever its result, adds the frame to those written and
changes nothing else. -/
theorem exchange_write (ToBytes : Command → List Byte) (cmd : Command) (x : ExchangeState)
    (w : WriteResult) (rest : List Event) (hx : x.loop.done = false) :
    exchange ToBytes cmd x (Event.write w :: rest) =
      exchange ToBytes cmd { loop := x.loop, written := x.written ++ [ToBytes cmd] } rest := by
  simp [exchange, hx]

/-- A read that ends in a `continue` leaves `done` false and stores the read's pair. -/
theorem exchange_continue (ToBytes : Command → List Byte) (cmd : Command) (x : ExchangeState)
    (r : ReadResult) (rest : List Event) (hx : x.loop.done = false) (hr : r.continues cmd) :
    exchange ToBytes cmd x (Event.read r :: rest) =
      exchange ToBytes cmd
        { loop := { done := false, rawData := r.rawData, err := r.err }, written := x.written }
        rest := by
  rcases hr with h | h | ⟨b, ⟨h1, h2⟩, h3⟩
  · have h0 : r.err ≠ none := h
    simp [exchange, hx, h0]
  · obtain ⟨h1, h2⟩ := h
    simp [exchange, hx, h1, h2]
  · have hne : r.rawData ≠ [] := by
      intro h0
      simp [h0] at h2
    simp [exchange, hx, h1, h2, hne, h3]

/-- A read whose frame carries the opcode of the command ends the exchange. -/
theorem exchange_complete (ToBytes : Command → List Byte) (cmd : Command) (x : ExchangeState)
    (r : ReadResult) (rest : List Event) (hx : x.loop.done = false) (hr : r.completes cmd) :
    exchange ToBytes cmd x (Event.read r :: rest) =
      ExchangeExit.exited
        { loop := { done := true, rawData := r.rawData, err := none }, written := x.written } := by
  obtain ⟨b, ⟨h1, h2⟩, h3⟩ := hr
  have hne : r.rawData ≠ [] := by
    intro h0
    simp [h0] at h2
  simp [exchange, hx, h1, h2, hne, h3, exchange_done]

/-- A frame of length 1 read without error makes the exchange panic. -/
theorem exchange_short (ToBytes : Command → List Byte) (cmd : Command) (x : ExchangeState)
    (b : Byte) (rest : List Event) (hx : x.loop.done = false) :
    exchange ToBytes cmd x (Event.read { rawData := [b], err := none } :: rest) =
      ExchangeExit.panicked := by
  simp [exchange, hx]

/-- The exchange on `pre ++ rest` is the exchange on `pre`, resumed on `rest` when it is
still running. -/
theorem exchange_append (ToBytes : Command → List Byte) (cmd : Command)
    (pre rest : List Event) (x : ExchangeState) :
    exchange ToBytes cmd x (pre ++ rest) =
      match exchange ToBytes cmd x pre with
      | ExchangeExit.running x1 => exchange ToBytes cmd x1 rest
      | other => other := by
  induction pre generalizing x with
  | nil =>
    cases hd : x.loop.done
    · simp [exchange, hd]
    · simp [exchange, hd, exchange_done]
  | cons ev pre ih =>
    cases hd : x.loop.done
    · cases ev with
      | write w =>
        rw [List.cons_append, exchange_write ToBytes cmd x w _ hd,
          exchange_write ToBytes cmd x w _ hd]
        exact ih _
      | read r =>
        rcases ReadResult.cases cmd r with h | h | ⟨b, rfl⟩
        · rw [List.cons_append, exchange_continue ToBytes cmd x r _ hd h,
            exchange_continue ToBytes cmd x r _ hd h]
          exact ih _
        · rw [List.cons_append, exchange_complete ToBytes cmd x r _ hd h,
            exchange_complete ToBytes cmd x r _ hd h]
        · rw [List.cons_append, exchange_short ToBytes cmd x b _ hd,
            exchange_short ToBytes cmd x b _ hd]
    · rw [exchange_done ToBytes cmd x _ hd, exchange_done ToBytes cmd x _ hd]

/-- A state in which the exchange is running has `done` false. -/
theorem exchange_running_done (ToBytes : Command → List Byte) (cmd : Command)
    (events : List Event) (x x1 : ExchangeState)
    (h : exchange ToBytes cmd x events = ExchangeExit.running x1) : x1.loop.done = false := by
  induction events generalizing x with
  | nil =>
    cases hd : x.loop.done
    · simp [exchange, hd] at h
      rw [← h]
      exact hd
    · simp [exchange, hd] at h
  | cons ev events ih =>
    cases hd : x.loop.done
    · cases ev with
      | write w =>
        rw [exchange_write ToBytes cmd x w _ hd] at h
        exact ih _ h
      | read r =>
        rcases ReadResult.cases cmd r with hr | hr | ⟨b, rfl⟩
        · rw [exchange_continue ToBytes cmd x r _ hd hr] at h
          exact ih _ h
        · rw [exchange_complete ToBytes cmd x r _ hd hr] at h
          cases h
        · rw [exchange_short ToBytes cmd x b _ hd] at h
          cases h
    · rw [exchange_done ToBytes cmd x _ hd] at h
      cases h

/-- With `done` false, what the exchange does on events among which there is a read does not
depend on the values left in `rawData` and `err`: that read overwrites both. -/
theorem exchange_overwrites (ToBytes : Command → List Byte) (cmd : Command)
    (l1 l2 : LoopState) (h1 : l1.done = false) (h2 : l2.done = false) (rest : List Event)
    (w : List (List Byte)) (hr : ∃ r : ReadResult, Event.read r ∈ rest) :
    exchange ToBytes cmd { loop := l1, written := w } rest =
      exchange ToBytes cmd { loop := l2, written := w } rest := by
  induction rest generalizing w with
  | nil =>
    obtain ⟨r, hr⟩ := hr
    cases hr
  | cons ev rest ih =>
    cases ev with
    | write wr =>
      rw [exchange_write ToBytes cmd _ wr _ h1, exchange_write ToBytes cmd _ wr _ h2]
      apply ih
      obtain ⟨r, hr⟩ := hr
      rcases List.mem_cons.mp hr with h | h
      · cases h
      · exact ⟨r, h⟩
    | read r =>
      rcases ReadResult.cases cmd r with h | h | ⟨b, rfl⟩
      · rw [exchange_continue ToBytes cmd _ r _ h1 h, exchange_continue ToBytes cmd _ r _ h2 h]
      · rw [exchange_complete ToBytes cmd _ r _ h1 h, exchange_complete ToBytes cmd _ r _ h2 h]
      · rw [exchange_short ToBytes cmd _ b _ h1, exchange_short ToBytes cmd _ b _ h2]

/-- The receiver loop of the exchange is `receiverLoop` on the reads among the events. -/
theorem exchange_reads (ToBytes : Command → List Byte) (cmd : Command) (events : List Event)
    (x : ExchangeState) :
    receiverLoop cmd x.loop (readsOf events) =
      match exchange ToBytes cmd x events with
      | ExchangeExit.exited x1 => LoopExit.exited x1.loop
      | ExchangeExit.panicked => LoopExit.panicked
      | ExchangeExit.running x1 => LoopExit.reading x1.loop := by
  induction events generalizing x with
  | nil =>
    cases hd : x.loop.done <;> simp [exchange, readsOf, receiverLoop, hd]
  | cons ev events ih =>
    cases hd : x.loop.done
    · cases ev with
      | write w =>
        rw [exchange_write ToBytes cmd x w _ hd, readsOf]
        exact ih { loop := x.loop, written := x.written ++ [ToBytes cmd] }
      | read r =>
        rcases ReadResult.cases cmd r with h | h | ⟨b, rfl⟩
        · rw [exchange_continue ToBytes cmd x r _ hd h, readsOf,
            receiverLoop_continue cmd _ r _ hd h]
          exact ih
            { loop := { done := false, rawData := r.rawData, err := r.err }
              written := x.written }
        · rw [exchange_complete ToBytes cmd x r _ hd h, readsOf,
            receiverLoop_complete cmd _ r _ hd h]
        · rw [exchange_short ToBytes cmd x b _ hd, readsOf, receiverLoop_short cmd _ b _ hd]
    · rw [exchange_done ToBytes cmd x _ hd, receiverLoop_done cmd _ _ hd]

/-! ## Theorems: `Exec` -/

/-- C3: for every command and every sequence of read results, when a frame whose byte at
index 1 equals the command's opcode is preceded only by read errors, empty frames and frames
with a different opcode byte, the loop is still reading after the earlier results, stops at
that frame whatever follows it, and `Exec` returns `NewResponse` of exactly that frame. -/
theorem Exec_returns_first_match {ρ : Type} (NewResponse : List Byte → ρ) (e : ESP8266)
    (cmd : Command) (pre : List ReadResult) (f : ReadResult) (rest : List ReadResult)
    (hpre : ∀ r ∈ pre, r.skippable cmd) (hf : f.matchesCmd cmd) :
    (∃ s : LoopState, (Exec NewResponse e cmd pre).2 = Outcome.reading s) ∧
    receiverLoop cmd LoopState.init (pre ++ f :: rest) =
      LoopExit.exited { done := true, rawData := f.rawData, err := none } ∧
    (Exec NewResponse e cmd (pre ++ f :: rest)).2 = Outcome.returned (NewResponse f.rawData) := by
  obtain ⟨b, hb, hop⟩ := hf
  have hlt : cmd.Opcode < 256 := by
    rw [← hop]
    exact b.isLt
  have hcompl : f.completes cmd := ⟨b, hb, by rw [Nat.mod_eq_of_lt hlt]; exact hop⟩
  have hcont : ∀ r ∈ pre, r.continues cmd :=
    fun r hr => ReadResult.skippable_continues cmd r hlt (hpre r hr)
  obtain ⟨s, hs, hd⟩ := receiverLoop_continues cmd pre LoopState.init rfl hcont
  have hloop : receiverLoop cmd LoopState.init (pre ++ f :: rest) =
      LoopExit.exited { done := true, rawData := f.rawData, err := none } := by
    rw [receiverLoop_append, hs]
    exact receiverLoop_complete cmd s f rest hd hcompl
  refine ⟨⟨s, (Exec_reading NewResponse e cmd pre s).mpr hs⟩, hloop, ?_⟩
  rw [Exec_outcome, hloop]

/-- C3, at a concrete input: frames with opcode bytes `0x08`, `0x02`, `0x09` precede a frame
with opcode byte `0x0a`, the opcode of the command; one more frame follows. -/
theorem Exec_returns_first_match_witness :
    (Exec NewResponse sampleSession sampleCommand
      ([sampleRead 0x08, sampleRead 0x02, sampleRead 0x09] ++
        sampleRead 0x0a :: [sampleRead 0x08])).2 =
      Outcome.returned (NewResponse (sampleFrame 0x0a)) :=
  (Exec_returns_first_match NewResponse sampleSession sampleCommand
    [sampleRead 0x08, sampleRead 0x02, sampleRead 0x09] (sampleRead 0x0a) [sampleRead 0x08]
    (by
      intro r hr
      simp only [List.mem_cons, List.mem_singleton, List.not_mem_nil, or_false] at hr
      rcases hr with rfl | rfl | rfl
      · exact Or.inr (Or.inr ⟨0x08, ⟨rfl, rfl⟩, by decide⟩)
      · exact Or.inr (Or.inr ⟨0x02, ⟨rfl, rfl⟩, by decide⟩)
      · exact Or.inr (Or.inr ⟨0x09, ⟨rfl, rfl⟩, by decide⟩))
    ⟨0x0a, ⟨rfl, rfl⟩, rfl⟩).2.2

/-- C4: evaluation of the code on a non-empty frame of length 1, read without error: for every
command and whatever reads follow, `Exec` panics at `rawData[1]` instead of discarding the
frame and reading on. -/
theorem Exec_one_byte_frame_panics {ρ : Type} (NewResponse : List Byte → ρ) (e : ESP8266)
    (cmd : Command) (b : Byte) (rest : List ReadResult) :
    (Exec NewResponse e cmd ({ rawData := [b], err := none } :: rest)).2 = Outcome.panicked := by
  rw [Exec_outcome, receiverLoop_short cmd LoopState.init b rest rfl]

/-- C5, refuted as stated. On reads: after a read that ends in a transport failure `Exec`
has not returned and is in its next read; when that read delivers a frame with the command's
opcode, `Exec` returns the parsed response and no error. On writes: after a write that ends in
a transport failure `Exec` has not returned either, the frame counts as written like any other,
and a frame with the command's opcode read next makes `Exec` return the parsed response and no
error. -/
theorem Exec_transport_failure_not_returned :
    ((Exec NewResponse sampleSession sampleCommand [transportFailure]).2 =
      Outcome.reading { done := false, rawData := [], err := some ReadError.transport } ∧
    (Exec NewResponse sampleSession sampleCommand [transportFailure, sampleRead 0x0a]).2 =
      Outcome.returned (Except.ok
        { opcode := 0x0a, value := [0x01, 0x02, 0x03, 0x04], status := [0x00, 0x00],
          raw := sampleFrame 0x0a })) ∧
    (exchange Command.ToBytes sampleCommand ExchangeState.init [Event.write writeFailure] =
      ExchangeExit.running
        { loop := LoopState.init
          written := [[0x00, 0x0a, 0x04, 0x00, 0x00, 0x00, 0x00, 0x00, 0x50, 0x00, 0xf0, 0x3f]] } ∧
    ExecWithTransmitter NewResponse Command.ToBytes sampleCommand [Event.write writeFailure] =
      Outcome.reading LoopState.init ∧
    ExecWithTransmitter NewResponse Command.ToBytes sampleCommand
        [Event.write writeFailure, Event.read (sampleRead 0x0a)] =
      Outcome.returned (Except.ok
        { opcode := 0x0a, value := [0x01, 0x02, 0x03, 0x04], status := [0x00, 0x00],
          raw := sampleFrame 0x0a })) := by
  refine ⟨⟨rfl, rfl⟩, rfl, rfl, rfl⟩

/-- C5, amended: for every command, wherever in the exchange a read or a write ends in an
error, a transport failure included, `Exec` does not return it and does not stop. After a
failed read the loop has stored the pair, `done` is false and `Exec` is in its next read; once
a later read has come, all is as if the failed read had not occurred. The result of a write
is dropped: after a write, failed or not, the frame counts as written, `done` is false and
`Exec` is still reading, and what follows does not depend on the result of the write. What
`Exec` comes to is what its receiver loop comes to on the reads alone. -/
theorem Exec_transport_failures_retried {ρ : Type} (NewResponse : List Byte → ρ)
    (ToBytes : Command → List Byte) (e : ESP8266) (cmd : Command) (pre : List Event)
    (x : ExchangeState)
    (h : exchange ToBytes cmd ExchangeState.init pre = ExchangeExit.running x) :
    (∀ (rawData : List Byte) (err : ReadError),
      exchange ToBytes cmd ExchangeState.init
          (pre ++ [Event.read { rawData := rawData, err := some err }]) =
        ExchangeExit.running
          { loop := { done := false, rawData := rawData, err := some err }
            written := x.written } ∧
      ExecWithTransmitter NewResponse ToBytes cmd
          (pre ++ [Event.read { rawData := rawData, err := some err }]) =
        Outcome.reading { done := false, rawData := rawData, err := some err }) ∧
    (∀ (rawData : List Byte) (err : ReadError) (rest : List Event),
      (∃ r : ReadResult, Event.read r ∈ rest) →
      exchange ToBytes cmd ExchangeState.init
          (pre ++ Event.read { rawData := rawData, err := some err } :: rest) =
        exchange ToBytes cmd ExchangeState.init (pre ++ rest)) ∧
    (∀ w : WriteResult,
      exchange ToBytes cmd ExchangeState.init (pre ++ [Event.write w]) =
        ExchangeExit.running { loop := x.loop, written := x.written ++ [ToBytes cmd] } ∧
      ExecWithTransmitter NewResponse ToBytes cmd (pre ++ [Event.write w]) =
        Outcome.reading x.loop ∧
      x.loop.done = false) ∧
    (∀ (w w1 : WriteResult) (rest : List Event),
      exchange ToBytes cmd ExchangeState.init (pre ++ Event.write w :: rest) =
        exchange ToBytes cmd ExchangeState.init (pre ++ Event.write w1 :: rest)) ∧
    (∀ events : List Event,
      ExecWithTransmitter NewResponse ToBytes cmd events =
        (Exec NewResponse e cmd (readsOf events)).2) := by
  have hd := exchange_running_done ToBytes cmd pre _ x h
  have hfail : ∀ (rawData : List Byte) (err : ReadError),
      ReadResult.continues cmd { rawData := rawData, err := some err } :=
    fun _ _ => Or.inl (by simp [ReadResult.failed])
  have hread : ∀ (rawData : List Byte) (err : ReadError),
      exchange ToBytes cmd ExchangeState.init
          (pre ++ [Event.read { rawData := rawData, err := some err }]) =
        ExchangeExit.running
          { loop := { done := false, rawData := rawData, err := some err }
            written := x.written } := by
    intro rawData err
    rw [exchange_append, h]
    simp only
    rw [exchange_continue ToBytes cmd x _ [] hd (hfail rawData err)]
    simp [exchange]
  have hwrite : ∀ w : WriteResult,
      exchange ToBytes cmd ExchangeState.init (pre ++ [Event.write w]) =
        ExchangeExit.running { loop := x.loop, written := x.written ++ [ToBytes cmd] } := by
    intro w
    rw [exchange_append, h]
    simp only
    rw [exchange_write ToBytes cmd x w [] hd]
    simp [exchange, hd]
  refine ⟨?_, ?_, ?_, ?_, ?_⟩
  · intro rawData err
    refine ⟨hread rawData err, ?_⟩
    unfold ExecWithTransmitter
    rw [hread rawData err]
  · intro rawData err rest hr
    rw [exchange_append, exchange_append ToBytes cmd pre rest, h]
    simp only
    rw [exchange_continue ToBytes cmd x _ rest hd (hfail rawData err)]
    exact exchange_overwrites ToBytes cmd _ x.loop rfl hd rest x.written hr
  · intro w
    refine ⟨hwrite w, ?_, hd⟩
    unfold ExecWithTransmitter
    rw [hwrite w]
  · intro w w1 rest
    rw [exchange_append, exchange_append ToBytes cmd pre (Event.write w1 :: rest), h]
    simp only
    rw [exchange_write ToBytes cmd x w rest hd, exchange_write ToBytes cmd x w1 rest hd]
  · intro events
    rw [Exec_outcome]
    have hb := exchange_reads ToBytes cmd events ExchangeState.init
    unfold ExecWithTransmitter
    change receiverLoop cmd LoopState.init (readsOf events) = _ at hb
    rw [hb]
    cases exchange ToBytes cmd ExchangeState.init events <;> rfl

/-- C5 amended, at a concrete input: after a write and a timeout, a read and a write that
each end in a transport failure. -/
theorem Exec_transport_failures_retried_witness :
    exchange Command.ToBytes sampleCommand ExchangeState.init
        [Event.write writeOk, Event.read timeoutRead] =
      ExchangeExit.running
        { loop := { done := false, rawData := [], err := some ReadError.timeout }
          written := [Command.ToBytes sampleCommand] } ∧
    ExecWithTransmitter NewResponse Command.ToBytes sampleCommand
        ([Event.write writeOk, Event.read timeoutRead] ++
          [Event.read { rawData := [], err := some ReadError.transport }]) =
      Outcome.reading { done := false, rawData := [], err := some ReadError.transport } ∧
    exchange Command.ToBytes sampleCommand ExchangeState.init
        ([Event.write writeOk, Event.read timeoutRead] ++ [Event.write writeFailure]) =
      ExchangeExit.running
        { loop := { done := false, rawData := [], err := some ReadError.timeout }
          written := [Command.ToBytes sampleCommand] ++ [Command.ToBytes sampleCommand] } :=
  have hw := Exec_transport_failures_retried NewResponse Command.ToBytes sampleSession
    sampleCommand [Event.write writeOk, Event.read timeoutRead]
    { loop := { done := false, rawData := [], err := some ReadError.timeout }
      written := [Command.ToBytes sampleCommand] } rfl
  ⟨rfl, (hw.1 [] ReadError.transport).2, (hw.2.2.1 writeFailure).1⟩

/-- C6, refuted as stated: a two-byte frame whose opcode byte is the command's ends the loop,
`NewResponse` rejects it as too short, and `Exec` returns that parse error to its caller. -/
theorem Exec_returns_parse_error :
    (Exec NewResponse sampleSession sampleCommand [{ rawData := [0x01, 0x0a], err := none }]).2 =
      Outcome.returned (Except.error ParseError.tooShort) := by
  rfl

/-- C6, amended: whenever `Exec` returns, the value returned is what `NewResponse` yields, be it
a response or an error, on the first frame that was read without error and whose byte at
index 1 is `byte(cmd.Opcode)`; every read before it was a read error, an empty frame or a frame
with another opcode byte. No error of a read is returned. -/
theorem Exec_returns_NewResponse_of_match {ρ : Type} (NewResponse : List Byte → ρ)
    (e : ESP8266) (cmd : Command) (reads : List ReadResult) (x : ρ)
    (h : (Exec NewResponse e cmd reads).2 = Outcome.returned x) :
    ∃ (pre : List ReadResult) (f : ReadResult) (rest : List ReadResult),
      reads = pre ++ f :: rest ∧ (∀ r ∈ pre, r.continues cmd) ∧ f.completes cmd ∧
      x = NewResponse f.rawData := by
  rw [Exec_outcome] at h
  cases hl : receiverLoop cmd LoopState.init reads with
  | exited s1 =>
    obtain ⟨pre, f, rest, h1, h2, h3, h4⟩ := receiverLoop_exited cmd reads _ s1 rfl hl
    rw [hl] at h
    simp only [Outcome.returned.injEq] at h
    refine ⟨pre, f, rest, h1, h2, h3, ?_⟩
    rw [← h, h4]
  | panicked =>
    rw [hl] at h
    cases h
  | reading s1 =>
    rw [hl] at h
    cases h

/-- C6 amended, at a concrete input: a timeout, then the too-short frame with the command's
opcode byte. -/
theorem Exec_returns_NewResponse_of_match_witness :
    (Exec NewResponse sampleSession sampleCommand
      [timeoutRead, { rawData := [0x01, 0x0a], err := none }]).2 =
      Outcome.returned (Except.error ParseError.tooShort) ∧
    ∃ (pre : List ReadResult) (f : ReadResult) (rest : List ReadResult),
      [timeoutRead, { rawData := [0x01, 0x0a], err := none }] = pre ++ f :: rest ∧
      (∀ r ∈ pre, r.continues sampleCommand) ∧ f.completes sampleCommand ∧
      Except.error ParseError.tooShort = NewResponse f.rawData :=
  ⟨rfl, Exec_returns_NewResponse_of_match NewResponse sampleSession sampleCommand
    [timeoutRead, { rawData := [0x01, 0x0a], err := none }] (Except.error ParseError.tooShort)
    rfl⟩

/-- C7: for every command and every `n`, when each of the first `n` reads ends in a timeout or
yields an empty frame, then after those reads `Exec` has not returned: it is in its loop with
`done` false, and the next read is performed and handled as a first read would be. -/
theorem Exec_keeps_reading_on_timeouts {ρ : Type} (NewResponse : List Byte → ρ) (e : ESP8266)
    (cmd : Command) (n : Nat) (reads : Fin n → ReadResult)
    (h : ∀ i : Fin n, (reads i).err = some ReadError.timeout ∨ (reads i).emptyFrame) :
    (∃ s : LoopState,
      (Exec NewResponse e cmd (List.ofFn reads)).2 = Outcome.reading s ∧ s.done = false) ∧
    ∀ (r : ReadResult) (rest : List ReadResult),
      (Exec NewResponse e cmd (List.ofFn reads ++ r :: rest)).2 =
        (Exec NewResponse e cmd (r :: rest)).2 := by
  have hcont : ∀ r ∈ List.ofFn reads, r.continues cmd := by
    intro r hr
    obtain ⟨i, rfl⟩ := (List.mem_ofFn reads r).mp hr
    rcases h i with h1 | h1
    · exact Or.inl (by simp [ReadResult.failed, h1])
    · exact Or.inr (Or.inl h1)
  obtain ⟨s, hs, hd⟩ := receiverLoop_continues cmd (List.ofFn reads) LoopState.init rfl hcont
  refine ⟨⟨s, (Exec_reading NewResponse e cmd _ s).mpr hs, hd⟩, ?_⟩
  intro r rest
  exact Exec_resume NewResponse e cmd _ s r rest hs

/-- C7, at a concrete input: a timeout, an empty frame and another timeout (`n = 3`). -/
theorem Exec_keeps_reading_on_timeouts_witness :
    (∃ s : LoopState,
      (Exec NewResponse sampleSession sampleCommand
        (List.ofFn ![timeoutRead, emptyRead, timeoutRead])).2 = Outcome.reading s ∧
      s.done = false) ∧
    ∀ (r : ReadResult) (rest : List ReadResult),
      (Exec NewResponse sampleSession sampleCommand
        (List.ofFn ![timeoutRead, emptyRead, timeoutRead] ++ r :: rest)).2 =
        (Exec NewResponse sampleSession sampleCommand (r :: rest)).2 :=
  Exec_keeps_reading_on_timeouts NewResponse sampleSession sampleCommand 3
    ![timeoutRead, emptyRead, timeoutRead]
    (by
      intro i
      fin_cases i
      · exact Or.inl rfl
      · exact Or.inr ⟨rfl, rfl⟩
      · exact Or.inl rfl)

/-! ## Theorems: the control lines and `Sync` -/

/-- The trace of `Sync`: four applies and two sleeps, then the start of `Exec`. -/
theorem Sync_trace {ρ : Type} (NewResponse : List Byte → ρ) (NewSyncCommand : Command)
    (e : ESP8266) (reads : List ReadResult) :
    (Sync NewResponse NewSyncCommand e reads).1.trace =
      e.trace ++
        [Action.apply { e.serialOpts with DTR := serial.DTR_OFF },
         Action.apply { e.serialOpts with DTR := serial.DTR_OFF, RTS := serial.RTS_ON },
         Action.sleep (100 * Millisecond),
         Action.apply { e.serialOpts with DTR := serial.DTR_ON, RTS := serial.RTS_ON },
         Action.apply { e.serialOpts with DTR := serial.DTR_ON, RTS := serial.RTS_OFF },
         Action.sleep (100 * Millisecond),
         Action.exec NewSyncCommand] := by
  unfold Sync
  simp only [Exec_session]
  simp [SetDTR, SetRTS, Sleep, Apply]

/-- The function `appliedLines` distributes over concatenation. -/
theorem appliedLines_append (t u : List Action) :
    appliedLines (t ++ u) = appliedLines t ++ appliedLines u := by
  induction t with
  | nil => rfl
  | cons a t ih => cases a <;> simp [appliedLines, ih]

/-- C8, refuted as stated: from a session with DTR on and RTS off, `Sync` applies four line
configurations, not two; DTR off with the initial RTS value (off) and DTR and RTS both on are
each applied on their own. -/
theorem Sync_applies_intermediate_lines :
    appliedLines (Sync NewResponse sampleSyncCommand sampleSession []).1.trace =
      [(serial.Pin.OFF, serial.Pin.OFF), (serial.Pin.OFF, serial.Pin.ON),
       (serial.Pin.ON, serial.Pin.ON), (serial.Pin.ON, serial.Pin.OFF)] ∧
    appliedLines (Sync NewResponse sampleSyncCommand sampleSession []).1.trace ≠
      [(serial.Pin.OFF, serial.Pin.ON), (serial.Pin.ON, serial.Pin.OFF)] := by
  constructor
  · rfl
  · decide

/-- C8, amended: during the reset sequence of `Sync`, for every initial state, exactly four
line configurations are applied to the device, one per setter call, in this order: DTR off
with the initial RTS value, DTR off with RTS on, DTR on with RTS on, DTR on with RTS off. -/
theorem Sync_applies_four_lines {ρ : Type} (NewResponse : List Byte → ρ)
    (NewSyncCommand : Command) (e : ESP8266) (reads : List ReadResult) :
    appliedLines (Sync NewResponse NewSyncCommand e reads).1.trace =
      appliedLines e.trace ++
        [(serial.DTR_OFF, e.serialOpts.RTS), (serial.DTR_OFF, serial.RTS_ON),
         (serial.DTR_ON, serial.RTS_ON), (serial.DTR_ON, serial.RTS_OFF)] := by
  rw [Sync_trace, appliedLines_append]
  rfl

/-- C9: `Sync` applies DTR off, then RTS on, sleeps, applies DTR on, then RTS off, sleeps, and
only then starts `Exec`: it is `Exec` of `NewSyncCommand`, on the same reads, from a session
state whose trace is the initial trace followed by these six actions, and whose recorded lines
are DTR on and RTS off; the action that follows in the trace is the start of that `Exec`. -/
theorem Sync_resets_then_execs {ρ : Type} (NewResponse : List Byte → ρ)
    (NewSyncCommand : Command) (e : ESP8266) (reads : List ReadResult) :
    ∃ e1 : ESP8266,
      Sync NewResponse NewSyncCommand e reads = Exec NewResponse e1 NewSyncCommand reads ∧
      e1.serialOpts.DTR = serial.DTR_ON ∧ e1.serialOpts.RTS = serial.RTS_OFF ∧
      e1.trace = e.trace ++
        [Action.apply { e.serialOpts with DTR := serial.DTR_OFF },
         Action.apply { e.serialOpts with DTR := serial.DTR_OFF, RTS := serial.RTS_ON },
         Action.sleep (100 * Millisecond),
         Action.apply { e.serialOpts with DTR := serial.DTR_ON, RTS := serial.RTS_ON },
         Action.apply { e.serialOpts with DTR := serial.DTR_ON, RTS := serial.RTS_OFF },
         Action.sleep (100 * Millisecond)] ∧
      (Sync NewResponse NewSyncCommand e reads).1.trace =
        e1.trace ++ [Action.exec NewSyncCommand] := by
  refine ⟨Sleep (SetRTS (SetDTR (Sleep (SetRTS (SetDTR e false) true) (100 * Millisecond)) true)
    false) (100 * Millisecond), rfl, ?_, ?_, ?_, ?_⟩
  · simp [SetDTR, SetRTS, Sleep, Apply]
  · simp [SetDTR, SetRTS, Sleep, Apply]
  · simp [SetDTR, SetRTS, Sleep, Apply]
  · rw [Sync_trace]
    simp [SetDTR, SetRTS, Sleep, Apply]

/-- C10: for every session state and every `v`, `SetDTR v` (respectively `SetRTS v`) hands
exactly one set of options to the device, and it is the set recorded in the session after the
call: the field `DTR` (respectively `RTS`) holds the value for `v` and the other fields are
those from before the call. This holds whether or not the apply step succeeds, as the setter
drops its result. -/
theorem setters_apply_recorded_options (e : ESP8266) (v : Bool) :
    ((SetDTR e v).trace = e.trace ++ [Action.apply (SetDTR e v).serialOpts] ∧
      (SetDTR e v).serialOpts =
        { e.serialOpts with DTR := if v then serial.DTR_ON else serial.DTR_OFF }) ∧
    ((SetRTS e v).trace = e.trace ++ [Action.apply (SetRTS e v).serialOpts] ∧
      (SetRTS e v).serialOpts =
        { e.serialOpts with RTS := if v then serial.RTS_ON else serial.RTS_OFF }) := by
  cases v <;> simp [SetDTR, SetRTS, Apply]

end Esp8266tool
